import Mathlib

/-!
Verification of the object-model core of the primordialsoup virtual machine.

The definitions below are a shallow embedding of `src/vm/object.h`,
`src/vm/globals.h` and `vm/heap_analyzer.cc`.  Machine words are modelled
as `Nat` values below `2 ^ W` (with `W` the word bit width); signed
machine integers (`intptr_t`) are modelled as `Int`, with the two's
complement reinterpretations `wordOfInt` / `intOfWord` made explicit.
Functions guarded by `ASSERT` in the source are modelled as `Option`
valued: `none` is an assertion failure.
-/

namespace PSoup

/-! ### Word-size constants (src/vm/globals.h)

`kSmiBits = kBitsPerWord - 2`, `kSmiMax = (1 << kSmiBits) - 1`,
`kSmiMin = -(1 << kSmiBits)`, parameterised by the word width `W`
(`kBitsPerWord`). -/

def kSmiBits (W : Nat) : Nat := W - 2

def kSmiMax (W : Nat) : Int := 2 ^ kSmiBits W - 1

def kSmiMin (W : Nat) : Int := -(2 ^ kSmiBits W)

/-- Reinterpret a signed machine integer as an unsigned machine word
(two's complement, `W` bits). -/
def wordOfInt (W : Nat) (v : Int) : Nat := (v % (2 ^ W : Int)).toNat

/-- Reinterpret an unsigned machine word as a signed machine integer
(two's complement, `W` bits). -/
def intOfWord (W : Nat) (w : Nat) : Int :=
  if w < 2 ^ (W - 1) then (w : Int) else (w : Int) - 2 ^ W

/-! ### SmallInteger (src/vm/object.h lines 339-361)

`kSmiTagShift = 1`.  `SmallInteger::New(value)` is
`value << kSmiTagShift` on `intptr_t`, i.e. multiplication by 2 wrapped
to the word width; we keep the resulting machine word.
`SmallInteger::value()` reinterprets the word as `intptr_t` and
arithmetically shifts right by `kSmiTagShift`; an arithmetic right shift
by 1 is floor division by 2. -/

def SmallInteger.New (W : Nat) (v : Int) : Nat := wordOfInt W (v * 2)

def SmallInteger.value (W : Nat) (w : Nat) : Int := Int.fdiv (intOfWord W w) 2

/-- Helper: the word encoding a small integer in range is exactly
`v * 2` shifted into `[0, 2^W)`, i.e. `v * 2` for nonnegative `v` and
`v * 2 + 2^W` for negative `v`. -/
theorem smiNew_eq (W : Nat) (v : Int) (hW : 2 ≤ W)
    (hlo : kSmiMin W ≤ v) (hhi : v ≤ kSmiMax W) :
    (SmallInteger.New W v : Int) = if 0 ≤ v then v * 2 else v * 2 + 2 ^ W := by
  obtain ⟨k, rfl⟩ : ∃ k, W = k + 2 := ⟨W - 2, by omega⟩
  have hA : (0 : Int) < 2 ^ k := by positivity
  have hpow2 : (2 : Int) ^ (k + 2) = 4 * 2 ^ k := by ring
  have hmin : kSmiMin (k + 2) = -(2 ^ k) := by
    simp [kSmiMin, kSmiBits]
  have hmax : kSmiMax (k + 2) = 2 ^ k - 1 := by
    simp [kSmiMax, kSmiBits]
  rw [hmin] at hlo
  rw [hmax] at hhi
  unfold SmallInteger.New wordOfInt
  by_cases hv : 0 ≤ v
  · have h1 : v * 2 % (2 ^ (k + 2) : Int) = v * 2 := by
      apply Int.emod_eq_of_lt (by omega)
      rw [hpow2]; omega
    rw [h1, if_pos hv, Int.toNat_of_nonneg (by omega)]
  · have h1 : v * 2 % (2 ^ (k + 2) : Int) = v * 2 + 2 ^ (k + 2) := by
      have h2 : v * 2 % (2 ^ (k + 2) : Int)
          = (v * 2 + 2 ^ (k + 2) * 1) % (2 ^ (k + 2) : Int) := by
        rw [Int.add_mul_emod_self_left]
      rw [h2, mul_one]
      apply Int.emod_eq_of_lt
      · rw [hpow2]; omega
      · omega
    rw [h1, if_neg hv, Int.toNat_of_nonneg (by rw [hpow2]; omega)]

/-- C1: for every integer `v` with `kSmiMin ≤ v ≤ kSmiMax` (word width
`W ≥ 2`), `SmallInteger::New(v)->value() == v`, the encoded word has low
tag bit 0, and for `v = kSmiMax` the encoded word equals
`kSmiMax << 1`. -/
theorem smi_roundtrip (W : Nat) (v : Int) (hW : 2 ≤ W)
    (hlo : kSmiMin W ≤ v) (hhi : v ≤ kSmiMax W) :
    SmallInteger.value W (SmallInteger.New W v) = v ∧
    SmallInteger.New W v % 2 = 0 ∧
    SmallInteger.New W (kSmiMax W) = (kSmiMax W * 2).toNat := by
  refine ⟨?_, ?_, ?_⟩
  · have henc := smiNew_eq W v hW hlo hhi
    obtain ⟨k, rfl⟩ : ∃ k, W = k + 2 := ⟨W - 2, by omega⟩
    have hmin : kSmiMin (k + 2) = -(2 ^ k) := by simp [kSmiMin, kSmiBits]
    have hmax : kSmiMax (k + 2) = 2 ^ k - 1 := by simp [kSmiMax, kSmiBits]
    rw [hmin] at hlo
    rw [hmax] at hhi
    have hpow2 : (2 : Int) ^ (k + 2) = 4 * 2 ^ k := by ring
    have hpow1 : (2 : Int) ^ (k + 2 - 1) = 2 * 2 ^ k := by
      have : k + 2 - 1 = k + 1 := by omega
      rw [this]; ring
    unfold SmallInteger.value intOfWord
    by_cases hv : 0 ≤ v
    · rw [if_pos hv] at henc
      have hlt : ((SmallInteger.New (k + 2) v : Nat) : Int) < 2 ^ (k + 2 - 1) := by
        rw [henc, hpow1]; omega
      rw [if_pos (by exact_mod_cast hlt), henc, Int.mul_fdiv_cancel _ (by norm_num)]
    · rw [if_neg hv] at henc
      have hge : ¬ ((SmallInteger.New (k + 2) v : Nat) : Int) < 2 ^ (k + 2 - 1) := by
        rw [henc, hpow1, hpow2]; omega
      rw [if_neg (by exact_mod_cast hge), henc]
      have : v * 2 + 2 ^ (k + 2) - 2 ^ (k + 2) = v * 2 := by ring
      rw [this, Int.mul_fdiv_cancel _ (by norm_num)]
  · have henc := smiNew_eq W v hW hlo hhi
    by_cases hv : 0 ≤ v
    · rw [if_pos hv] at henc
      omega
    · rw [if_neg hv] at henc
      obtain ⟨k, rfl⟩ : ∃ k, W = k + 2 := ⟨W - 2, by omega⟩
      have hpow2 : (2 : Int) ^ (k + 2) = 4 * 2 ^ k := by ring
      rw [hpow2] at henc
      omega
  · have hpos : (0 : Int) < 2 ^ kSmiBits W := by positivity
    have hmaxpos : 0 ≤ kSmiMax W := by
      unfold kSmiMax
      omega
    have henc := smiNew_eq W (kSmiMax W) hW (by
        unfold kSmiMin kSmiMax
        omega) le_rfl
    rw [if_pos hmaxpos] at henc
    omega

/-- Witness for C1 at `W = 64`, `v = -3`. -/
theorem smi_roundtrip_witness :
    (2 ≤ 64 ∧ kSmiMin 64 ≤ (-3 : Int) ∧ (-3 : Int) ≤ kSmiMax 64) ∧
    (SmallInteger.value 64 (SmallInteger.New 64 (-3)) = (-3 : Int) ∧
     SmallInteger.New 64 (-3) % 2 = 0 ∧
     SmallInteger.New 64 (kSmiMax 64) = (kSmiMax 64 * 2).toNat) :=
  ⟨⟨by norm_num, by decide, by decide⟩,
   smi_roundtrip 64 (-3) (by norm_num) (by decide) (by decide)⟩

/-! ### Object alignment and header layout, 64-bit instantiation
(src/vm/object.h lines 18-95, `ARCH_IS_64_BIT`): `kWordSize = 8`,
`kObjectAlignment = 2 * kWordSize = 16`, `kObjectAlignmentLog2 = 4`,
size field at bits [16,32), class-id field at bits [32,64), mark bit 0,
canonical bit 2. -/

def kWordSize : Nat := 8

def kWordSizeLog2 : Nat := 3

def kObjectAlignment : Nat := 16

def kObjectAlignmentLog2 : Nat := 4

def kObjectAlignmentMask : Nat := 15

def kMarkBit : Nat := 0

def kCanonicalBit : Nat := 2

def kSizeFieldOffset : Nat := 16

def kSizeFieldSize : Nat := 16

def kClassIdFieldOffset : Nat := 32

def kClassIdFieldSize : Nat := 32

/-! Class identifiers (src/vm/object.h lines 75-95). -/

def kIllegalCid : Nat := 0

def kForwardingCorpseCid : Nat := 1

def kFirstLegalCid : Nat := 2

def kSmiCid : Nat := 2

def kMintCid : Nat := 3

def kBigintCid : Nat := 4

def kFloat64Cid : Nat := 5

def kByteArrayCid : Nat := 6

def kByteStringCid : Nat := 7

def kWideStringCid : Nat := 8

def kArrayCid : Nat := 9

def kWeakArrayCid : Nat := 10

def kEphemeronCid : Nat := 11

def kActivationCid : Nat := 12

def kClosureCid : Nat := 13

def kFirstRegularObjectCid : Nat := 14

/-- Modelled from the spec: `vm/bitfield.h` is not among the provided
sources.  Spec §2 lists "bit-field encode/decode over a machine word"
among the primitive utilities; decoding a field at bit position `pos` of
width `size` extracts bits `[pos, pos + size)` of the word. -/
def bitDecode (pos size w : Nat) : Nat := w / 2 ^ pos % 2 ^ size

/-- Modelled from the spec: `vm/bitfield.h` is not among the provided
sources.  Updating a field at bit position `pos` of width `size`
replaces bits `[pos, pos + size)` of the word with the value, leaving
the other bits unchanged. -/
def bitUpdate (pos size v w : Nat) : Nat :=
  w / 2 ^ (pos + size) * 2 ^ (pos + size) + v % 2 ^ size * 2 ^ pos + w % 2 ^ pos

/-- Modelled from the spec: `vm/bitfield.h` is not among the provided
sources.  A field value is representable iff it is below `2 ^ size`
(spec §3.2: "A zero size means consult class/layout, used when the real
size exceeds what the field can encode"). -/
def bitIsValid (size v : Nat) : Bool := v < 2 ^ size

/-! ### Heap object representation (src/vm/object.h lines 127-306)

An allocated heap object's two leading machine words: `header_` and
`identity_hash_`.  The accessors below embed `Object::heap_size`,
`Object::cid`, `Object::is_marked`, `Object::is_canonical`. -/

structure ObjRep where
  header : Nat
  identity_hash : Nat
deriving DecidableEq, Repr

def ObjRep.cid (o : ObjRep) : Nat :=
  bitDecode kClassIdFieldOffset kClassIdFieldSize o.header

def ObjRep.heap_size (o : ObjRep) : Nat :=
  bitDecode kSizeFieldOffset kSizeFieldSize o.header <<< kObjectAlignmentLog2

def ObjRep.is_marked (o : ObjRep) : Bool :=
  decide (bitDecode kMarkBit 1 o.header = 1)

def ObjRep.is_canonical (o : ObjRep) : Bool :=
  decide (bitDecode kCanonicalBit 1 o.header = 1)

/-- Object::InitializeObject (src/vm/object.h lines 237-255), with each
`ASSERT` modelled as an `Option` guard (`none` = assertion failure):
`cid != kIllegalCid`, `heap_size` aligned and positive, on size-tag
overflow `cid < kFirstRegularObjectCid`, and the two final assertions
`obj->cid() == cid` and `!obj->is_marked()`. -/
def initWithTag (cid sizeTag : Nat) : Option ObjRep :=
  let header0 := bitUpdate kSizeFieldOffset kSizeFieldSize sizeTag 0
  let header1 := bitUpdate kClassIdFieldOffset kClassIdFieldSize cid header0
  let obj : ObjRep := ⟨header1, 0⟩
  if obj.cid = cid ∧ obj.is_marked = false then some obj else none

def InitializeObject (cid heapSize : Nat) : Option ObjRep :=
  if cid = kIllegalCid then none
  else if heapSize % kObjectAlignment ≠ 0 then none
  else if heapSize = 0 then none
  else
    let sizeTag0 := heapSize >>> kObjectAlignmentLog2
    if bitIsValid kSizeFieldSize sizeTag0 then initWithTag cid sizeTag0
    else if cid < kFirstRegularObjectCid then initWithTag cid 0
    else none

/-- Helper: the header word built by `InitializeObject` in closed form. -/
theorem initHeader_eq (cid sizeTag : Nat) :
    bitUpdate kClassIdFieldOffset kClassIdFieldSize cid
      (bitUpdate kSizeFieldOffset kSizeFieldSize sizeTag 0)
    = cid % 2 ^ 32 * 2 ^ 32 + sizeTag % 2 ^ 16 * 2 ^ 16 := by
  simp only [bitUpdate, kClassIdFieldOffset, kClassIdFieldSize,
    kSizeFieldOffset, kSizeFieldSize]
  norm_num
  omega

/-- Helper: an object produced by `initWithTag` is the canonical fresh
object, and passed the source's trailing assertions. -/
theorem initWithTag_some (cid sizeTag : Nat) (o : ObjRep)
    (h : initWithTag cid sizeTag = some o) :
    o = ⟨cid % 2 ^ 32 * 2 ^ 32 + sizeTag % 2 ^ 16 * 2 ^ 16, 0⟩ ∧
    o.cid = cid ∧ o.is_marked = false := by
  simp only [initWithTag, initHeader_eq] at h
  split at h
  · rename_i hc
    cases h
    exact ⟨rfl, hc.1, hc.2⟩
  · exact absurd h (by simp)

/-- Helper: canonical-bit and size-field reads of the freshly built
header. -/
theorem initObj_fields (cid sizeTag : Nat) :
    (⟨cid % 2 ^ 32 * 2 ^ 32 + sizeTag % 2 ^ 16 * 2 ^ 16, 0⟩ :
        ObjRep).is_canonical = false ∧
    (⟨cid % 2 ^ 32 * 2 ^ 32 + sizeTag % 2 ^ 16 * 2 ^ 16, 0⟩ :
        ObjRep).heap_size = sizeTag % 2 ^ 16 * 16 := by
  constructor
  · simp only [ObjRep.is_canonical, bitDecode, kCanonicalBit,
      decide_eq_false_iff_not]
    omega
  · simp only [ObjRep.heap_size, bitDecode, kSizeFieldOffset,
      kSizeFieldSize, Nat.shiftLeft_eq, kObjectAlignmentLog2]
    omega

/-- C5: for every `cid ≠ 0` and every `heap_size` that is a positive
multiple of the object alignment, the object returned by
`InitializeObject(raw, cid, heap_size)` satisfies `cid() == cid`,
`identity_hash() == 0`, `is_marked() == false`, `is_canonical() == false`,
and `heap_size() == heap_size` whenever
`heap_size >> kObjectAlignmentLog2` fits in the header size field. -/
theorem initializeObject_spec (cid heapSize : Nat) (o : ObjRep)
    (hcid : cid ≠ 0) (halign : heapSize % kObjectAlignment = 0)
    (hpos : 0 < heapSize)
    (hinit : InitializeObject cid heapSize = some o) :
    o.cid = cid ∧ o.identity_hash = 0 ∧ o.is_marked = false ∧
    o.is_canonical = false ∧
    (heapSize >>> kObjectAlignmentLog2 < 2 ^ kSizeFieldSize →
      o.heap_size = heapSize) := by
  unfold InitializeObject at hinit
  rw [if_neg (by simpa [kIllegalCid] using hcid), if_neg (by simp [halign]),
      if_neg (by omega)] at hinit
  by_cases hvalid : heapSize >>> kObjectAlignmentLog2 < 2 ^ kSizeFieldSize
  · rw [if_pos (by simpa [bitIsValid] using hvalid)] at hinit
    obtain ⟨ho, hc, hm⟩ := initWithTag_some _ _ _ hinit
    subst ho
    refine ⟨hc, rfl, hm, (initObj_fields _ _).1, fun _ => ?_⟩
    rw [(initObj_fields _ _).2,
        Nat.mod_eq_of_lt (by simpa [kSizeFieldSize] using hvalid)]
    have h16 : heapSize % 16 = 0 := by simpa [kObjectAlignment] using halign
    simp only [Nat.shiftRight_eq_div_pow, kObjectAlignmentLog2]
    omega
  · rw [if_neg (by simpa [bitIsValid] using hvalid)] at hinit
    by_cases hreg : cid < kFirstRegularObjectCid
    · rw [if_pos hreg] at hinit
      obtain ⟨ho, hc, hm⟩ := initWithTag_some _ _ _ hinit
      subst ho
      exact ⟨hc, rfl, hm, (initObj_fields _ _).1, fun hv => absurd hv hvalid⟩
    · rw [if_neg hreg] at hinit
      exact absurd hinit (by simp)

/-- Witness for C5: `InitializeObject` with `cid = kArrayCid = 9` and
`heap_size = 48` (an array of three elements). -/
theorem initializeObject_spec_witness :
    (9 ≠ 0 ∧ 48 % kObjectAlignment = 0 ∧ 0 < 48 ∧
      InitializeObject 9 48 = some ⟨9 * 2 ^ 32 + 3 * 2 ^ 16, 0⟩) ∧
    ((⟨9 * 2 ^ 32 + 3 * 2 ^ 16, 0⟩ : ObjRep).cid = 9 ∧
     (⟨9 * 2 ^ 32 + 3 * 2 ^ 16, 0⟩ : ObjRep).identity_hash = 0 ∧
     (⟨9 * 2 ^ 32 + 3 * 2 ^ 16, 0⟩ : ObjRep).is_marked = false ∧
     (⟨9 * 2 ^ 32 + 3 * 2 ^ 16, 0⟩ : ObjRep).is_canonical = false ∧
     (48 >>> kObjectAlignmentLog2 < 2 ^ kSizeFieldSize →
       (⟨9 * 2 ^ 32 + 3 * 2 ^ 16, 0⟩ : ObjRep).heap_size = 48)) :=
  ⟨⟨by decide, by decide, by decide, by decide⟩,
   initializeObject_spec 9 48 ⟨9 * 2 ^ 32 + 3 * 2 ^ 16, 0⟩
     (by decide) (by decide) (by decide) (by decide)⟩

/-! ### Tagged references (src/vm/object.h lines 127-193, 262-268)

A runtime value is either an immediate small integer (low tag bit 0) or
a heap reference (low tag bit 1).  The tag test `IsSmallInteger` /
`IsHeapObject` is the constructor discrimination. -/

inductive Ref where
  | smi (v : Int)
  | heap (o : ObjRep)
deriving DecidableEq, Repr

def Ref.IsSmallInteger : Ref → Bool
  | .smi _ => true
  | .heap _ => false

def Ref.IsHeapObject : Ref → Bool
  | .smi _ => false
  | .heap _ => true

/-- Object::ClassId (src/vm/object.h lines 262-268): `kSmiCid` for a
small integer, otherwise the header's class-id field. -/
def Ref.ClassId : Ref → Nat
  | .smi _ => kSmiCid
  | .heap o => o.cid

/-- Object::IsRegularObject (src/vm/object.h lines 165-167):
`IsHeapObject() && (cid() >= kFirstRegularObjectCid)`. -/
def Ref.IsRegularObject : Ref → Bool
  | .smi _ => false
  | .heap o => decide (kFirstRegularObjectCid ≤ o.cid)

/-- C6: the reserved class identifiers have exactly the values
illegal = 0, forwarding-corpse = 1, small-integer = 2,
medium-integer = 3, big-integer = 4, float64 = 5, byte-array = 6,
byte-string = 7, wide-string = 8, array = 9, weak-array = 10,
ephemeron = 11, activation = 12, closure = 13 (first regular cid 14);
`ClassId()` returns 2 for every small-integer reference and the header's
class-id field for every heap reference; and `IsRegularObject(r)` holds
exactly when `r` is a heap reference whose cid is at least 14. -/
theorem class_id_taxonomy :
    (kIllegalCid = 0 ∧ kForwardingCorpseCid = 1 ∧ kSmiCid = 2 ∧
     kMintCid = 3 ∧ kBigintCid = 4 ∧ kFloat64Cid = 5 ∧
     kByteArrayCid = 6 ∧ kByteStringCid = 7 ∧ kWideStringCid = 8 ∧
     kArrayCid = 9 ∧ kWeakArrayCid = 10 ∧ kEphemeronCid = 11 ∧
     kActivationCid = 12 ∧ kClosureCid = 13 ∧
     kFirstRegularObjectCid = 14) ∧
    (∀ v : Int, Ref.ClassId (.smi v) = 2) ∧
    (∀ o : ObjRep, Ref.ClassId (.heap o) =
      bitDecode kClassIdFieldOffset kClassIdFieldSize o.header) ∧
    (∀ r : Ref, Ref.IsRegularObject r =
      (r.IsHeapObject && decide (14 ≤ r.ClassId))) := by
  refine ⟨by decide, fun v => rfl, fun o => rfl, fun r => ?_⟩
  cases r with
  | smi v => rfl
  | heap o =>
    simp [Ref.IsRegularObject, Ref.IsHeapObject, Ref.ClassId,
      kFirstRegularObjectCid]

/-! ### Heap size queries (src/vm/object.h lines 272-280) -/

/-- Modelled from the spec: `Utils::RoundUp` (vm/utils.h is not among
the provided sources); spec §4.3 and §4.4 call it `align`: round up to a
multiple of `kObjectAlignment`.  Embeds `Object::AllocationSize`. -/
def AllocationSize (size : Nat) : Nat :=
  (size + kObjectAlignment - 1) / kObjectAlignment * kObjectAlignment

/-- Modelled from the spec: `Object::HeapSizeFromClass` lives in
object.cc, which is not among the provided sources.  Spec §4.3: when
the header size field is zero the size is dispatched on the class
identifier and computed from the payload count, "e.g., a byte-string of
length N occupies align(header + 2*word + N)" with a two-word header;
the other variable-size layouts follow §3.4 (sizes in 64-bit words:
medium integer and float64 hold one 8-byte payload; a large integer has
sign and digit count plus `n` word digits; a byte array has a size slot
plus `n` bytes; a wide string has size and hash slots plus `n` 4-byte
units; arrays have a size slot plus `n` reference slots; an ephemeron
has three reference slots; an activation has six fixed slots plus 35
temps; a closure has four fixed slots plus `n` copied slots). -/
def HeapSizeFromClass (cid payload : Nat) : Nat :=
  if cid = kMintCid then AllocationSize (2 * 8 + 8)
  else if cid = kFloat64Cid then AllocationSize (2 * 8 + 8)
  else if cid = kBigintCid then AllocationSize (2 * 8 + 2 * 8 + payload * 8)
  else if cid = kByteArrayCid then AllocationSize (2 * 8 + 8 + payload)
  else if cid = kByteStringCid then AllocationSize (2 * 8 + 2 * 8 + payload)
  else if cid = kWideStringCid then
    AllocationSize (2 * 8 + 2 * 8 + 4 * payload)
  else if cid = kArrayCid ∨ cid = kWeakArrayCid then
    AllocationSize (2 * 8 + 8 + payload * 8)
  else if cid = kEphemeronCid then AllocationSize (2 * 8 + 3 * 8)
  else if cid = kClosureCid then
    AllocationSize (2 * 8 + 4 * 8 + payload * 8)
  else if cid = kActivationCid then
    AllocationSize (2 * 8 + 6 * 8 + 35 * 8)
  else 0

/-- Object::HeapSize (src/vm/object.h lines 272-279): return the decoded
header size field (shifted by the alignment) when nonzero, else fall
back to the class-layout computation.  `payload` is the element count
consulted by the fallback. -/
def HeapSize (o : ObjRep) (payload : Nat) : Nat :=
  if o.heap_size ≠ 0 then o.heap_size else HeapSizeFromClass o.cid payload

/-- Helper: when the cid fits its field, `initWithTag` succeeds and
yields the canonical fresh object. -/
theorem initWithTag_eq (cid sizeTag : Nat) (hcid : cid < 2 ^ 32) :
    initWithTag cid sizeTag =
      some ⟨cid % 2 ^ 32 * 2 ^ 32 + sizeTag % 2 ^ 16 * 2 ^ 16, 0⟩ := by
  simp only [initWithTag, initHeader_eq]
  rw [if_pos]
  constructor
  · simp only [ObjRep.cid, bitDecode, kClassIdFieldOffset, kClassIdFieldSize]
    omega
  · simp only [ObjRep.is_marked, bitDecode, kMarkBit,
      decide_eq_false_iff_not]
    omega

/-- C2, counterexample: a regular object (cid = 14) whose aligned size
`2^20` exceeds what the 16-bit size field can encode is NOT accepted by
`InitializeObject` — the source asserts `cid < kFirstRegularObjectCid`
on size-tag overflow, so the call is an assertion failure, contradicting
the claim that such an object is accepted and reports its true size. -/
theorem heapSize_oversized_regular_rejected :
    InitializeObject 14 1048576 = none := by decide

/-- C2, amended: `HeapSize()` returns the header size field shifted left
by the alignment log2 when that field is nonzero, and otherwise computes
the size from the class layout; an object whose size exceeds what the
size field can encode is accepted by `InitializeObject` with a zero size
field only when its cid is below `kFirstRegularObjectCid` (here shown
for a byte string), and such an object still reports its true size via
the class layout. -/
theorem heapSize_spec :
    (∀ (o : ObjRep) (payload : Nat),
      bitDecode kSizeFieldOffset kSizeFieldSize o.header ≠ 0 →
      HeapSize o payload =
        bitDecode kSizeFieldOffset kSizeFieldSize o.header <<<
          kObjectAlignmentLog2) ∧
    (∀ (o : ObjRep) (payload : Nat),
      bitDecode kSizeFieldOffset kSizeFieldSize o.header = 0 →
      HeapSize o payload = HeapSizeFromClass o.cid payload) ∧
    (∀ n : Nat,
      2 ^ kSizeFieldSize ≤
        AllocationSize (2 * 8 + 2 * 8 + n) >>> kObjectAlignmentLog2 →
      ∃ o : ObjRep,
        InitializeObject kByteStringCid (AllocationSize (2 * 8 + 2 * 8 + n))
          = some o ∧
        o.heap_size = 0 ∧
        HeapSize o n = AllocationSize (2 * 8 + 2 * 8 + n)) := by
  refine ⟨?_, ?_, ?_⟩
  · intro o payload hnz
    have hsz : o.heap_size ≠ 0 := by
      simp only [ObjRep.heap_size, Nat.shiftLeft_eq, kObjectAlignmentLog2]
      omega
    simp only [HeapSize]
    rw [if_pos hsz]
    rfl
  · intro o payload hz
    have hsz : o.heap_size = 0 := by
      simp [ObjRep.heap_size, hz, Nat.shiftLeft_eq]
    simp [HeapSize, hsz]
  · intro n hover
    have hsal : AllocationSize (2 * 8 + 2 * 8 + n) % kObjectAlignment = 0 := by
      simp only [AllocationSize, kObjectAlignment]
      omega
    have hspos : AllocationSize (2 * 8 + 2 * 8 + n) ≠ 0 := by
      simp only [AllocationSize, kObjectAlignment]
      omega
    refine ⟨⟨7 % 2 ^ 32 * 2 ^ 32 + 0 % 2 ^ 16 * 2 ^ 16, 0⟩, ?_, ?_, ?_⟩
    · simp only [InitializeObject, kByteStringCid]
      rw [if_neg (by simp [kIllegalCid]), if_neg (by simp [hsal]),
          if_neg hspos,
          if_neg (by simp only [bitIsValid, decide_eq_true_eq, not_lt]
                     simpa [kSizeFieldSize] using hover),
          if_pos (by simp [kFirstRegularObjectCid]),
          initWithTag_eq 7 0 (by norm_num)]
    · exact (initObj_fields 7 0).2
    · have hcid : (⟨7 % 2 ^ 32 * 2 ^ 32 + 0 % 2 ^ 16 * 2 ^ 16, 0⟩ :
          ObjRep).cid = 7 := by decide
      simp only [HeapSize]
      rw [if_neg (by decide), hcid]
      norm_num [HeapSizeFromClass, kMintCid, kFloat64Cid, kBigintCid,
        kByteArrayCid, kByteStringCid]

/-- Witness for C2's amended theorem: the size-field path at the fresh
array object of 48 bytes, the class-layout path at a zero-header object,
and the oversized byte-string path at length `2^20`. -/
theorem heapSize_spec_witness :
    (bitDecode kSizeFieldOffset kSizeFieldSize
        (⟨9 * 2 ^ 32 + 3 * 2 ^ 16, 0⟩ : ObjRep).header ≠ 0 ∧
      HeapSize ⟨9 * 2 ^ 32 + 3 * 2 ^ 16, 0⟩ 0 =
        bitDecode kSizeFieldOffset kSizeFieldSize
          (⟨9 * 2 ^ 32 + 3 * 2 ^ 16, 0⟩ : ObjRep).header <<<
          kObjectAlignmentLog2) ∧
    (bitDecode kSizeFieldOffset kSizeFieldSize
        (⟨7 * 2 ^ 32, 0⟩ : ObjRep).header = 0 ∧
      HeapSize ⟨7 * 2 ^ 32, 0⟩ 5 =
        HeapSizeFromClass (⟨7 * 2 ^ 32, 0⟩ : ObjRep).cid 5) ∧
    (2 ^ kSizeFieldSize ≤
        AllocationSize (2 * 8 + 2 * 8 + 1048576) >>> kObjectAlignmentLog2 ∧
      ∃ o : ObjRep,
        InitializeObject kByteStringCid
            (AllocationSize (2 * 8 + 2 * 8 + 1048576)) = some o ∧
        o.heap_size = 0 ∧
        HeapSize o 1048576 = AllocationSize (2 * 8 + 2 * 8 + 1048576)) :=
  ⟨⟨by decide, heapSize_spec.1 ⟨9 * 2 ^ 32 + 3 * 2 ^ 16, 0⟩ 0 (by decide)⟩,
   ⟨by decide, heapSize_spec.2.1 ⟨7 * 2 ^ 32, 0⟩ 5 (by decide)⟩,
   by decide, heapSize_spec.2.2 1048576 (by decide)⟩

/-! ### String content hash (src/vm/object.h lines 529-642)

`ByteString::EnsureHash` and `WideString::EnsureHash` are textually the
same computation; only the element width differs (8-bit bytes vs 32-bit
code units), which the fold does not depend on.  `hash_random_` is the
process-wide salt, modelled as an arbitrary machine word.  All
arithmetic is on `intptr_t`; bitwise XOR and wrapping multiplication on
two's complement words coincide with the computation below on the
unsigned word. -/

def kHashMask : Nat := 0x3FFFFFF

/-- The hash computed on a miss: starting from `h = length + 1`, fold
`h = (h XOR element) * 16777619` over the elements (64-bit wrap), XOR
the salt, and mask to the low 26 bits. -/
def stringHash (salt : Nat) (elements : List Nat) : Nat :=
  let h0 := (elements.length + 1) % 2 ^ 64
  let h := elements.foldl (fun h e => Nat.xor h e * 16777619 % 2 ^ 64) h0
  Nat.xor h salt &&& kHashMask

/-- A string's hash-relevant state: the raw word in the `hash_` slot
(0 = not yet computed) and the elements. -/
structure VMString where
  hashWord : Nat
  elements : List Nat
deriving DecidableEq, Repr

/-- ByteString::EnsureHash / WideString::EnsureHash (src/vm/object.h
lines 550-567 and 607-624): on a miss compute the hash, `ASSERT(h != 0)`
(modelled as `none`), store `SmallInteger::New(h)` in the hash slot and
return the slot; on a hit return the cached slot. -/
def EnsureHash (salt : Nat) (s : VMString) : Option (VMString × Nat) :=
  if s.hashWord = 0 then
    let h := stringHash salt s.elements
    if h = 0 then none
    else
      let s2 : VMString := ⟨SmallInteger.New 64 (h : Int), s.elements⟩
      some (s2, s2.hashWord)
  else some (s, s.hashWord)

/-- Helper: round-tripping a small nonnegative value through the
64-bit small-integer encoding. -/
theorem smiValue_new_nat (h : Nat) (hlt : (h : Int) ≤ kSmiMax 64) :
    SmallInteger.value 64 (SmallInteger.New 64 (h : Int)) = (h : Int) ∧
    SmallInteger.New 64 (h : Int) = 2 * h := by
  have henc := smiNew_eq 64 (h : Int) (by norm_num)
    (by
      unfold kSmiMin
      have hp : (0 : Int) < 2 ^ kSmiBits 64 := by positivity
      omega) hlt
  rw [if_pos (by positivity)] at henc
  have hmax : kSmiMax 64 = 2 ^ 62 - 1 := by norm_num [kSmiMax, kSmiBits]
  rw [hmax] at hlt
  have hN : SmallInteger.New 64 (h : Int) = 2 * h := by omega
  refine ⟨?_, hN⟩
  unfold SmallInteger.value intOfWord
  rw [if_pos (by
    rw [hN]
    have : (2 : Int) ^ (64 - 1) = 2 ^ 63 := by norm_num
    push_cast
    omega)]
  rw [hN]
  push_cast
  have : ((2 : Int) * h) = (h : Int) * 2 := by ring
  rw [this, Int.mul_fdiv_cancel _ (by norm_num)]

/-- C3, counterexample: for the empty string and salt 1 the folded hash
is `length + 1 = 1`, XOR-ing the salt gives 0, and the 26-bit mask
leaves 0 — so `EnsureHash` hits the internal `ASSERT(h != 0)` (modelled
as `none`), contradicting the claim that the masked result is nonzero
for all contents and salts. -/
theorem ensureHash_assert_fails :
    EnsureHash 1 ⟨0, []⟩ = none := by decide

/-- C3, amended: for every string whose hash slot is 0 and every salt
such that the salt-XORed masked fold is nonzero, `EnsureHash` returns a
small integer whose value is exactly that nonzero 26-bit fold, caches
it in the hash slot (which the first call fills), and every later call
— under any salt — returns the cached slot unchanged. -/
theorem ensureHash_spec (salt : Nat) (s : VMString)
    (hunset : s.hashWord = 0)
    (hnz : stringHash salt s.elements ≠ 0) :
    0 < stringHash salt s.elements ∧
    stringHash salt s.elements ≤ kHashMask ∧
    EnsureHash salt s =
      some (⟨SmallInteger.New 64 (stringHash salt s.elements : Int),
             s.elements⟩,
            SmallInteger.New 64 (stringHash salt s.elements : Int)) ∧
    SmallInteger.value 64
        (SmallInteger.New 64 (stringHash salt s.elements : Int)) =
      (stringHash salt s.elements : Int) ∧
    SmallInteger.New 64 (stringHash salt s.elements : Int) ≠ 0 ∧
    (∀ salt' : Nat,
      EnsureHash salt'
          ⟨SmallInteger.New 64 (stringHash salt s.elements : Int),
           s.elements⟩ =
        some (⟨SmallInteger.New 64 (stringHash salt s.elements : Int),
               s.elements⟩,
              SmallInteger.New 64 (stringHash salt s.elements : Int))) := by
  have hmask : stringHash salt s.elements ≤ kHashMask := by
    unfold stringHash
    exact Nat.and_le_right
  have hsmall : (stringHash salt s.elements : Int) ≤ kSmiMax 64 := by
    have hmax : kSmiMax 64 = 2 ^ 62 - 1 := by norm_num [kSmiMax, kSmiBits]
    have : kHashMask < 2 ^ 62 := by norm_num [kHashMask]
    omega
  obtain ⟨hval, henc⟩ := smiValue_new_nat _ hsmall
  have hne : SmallInteger.New 64 (stringHash salt s.elements : Int) ≠ 0 := by
    omega
  refine ⟨by omega, hmask, ?_, hval, hne, fun salt' => ?_⟩
  · unfold EnsureHash
    rw [if_pos hunset, if_neg hnz]
  · unfold EnsureHash
    rw [if_neg hne]

/-- Witness for C3's amended theorem: the one-byte string "a"
(element 97) with salt 0; its masked fold is 50371545. -/
theorem ensureHash_spec_witness :
    ((⟨0, [97]⟩ : VMString).hashWord = 0 ∧ stringHash 0 [97] ≠ 0) ∧
    (0 < stringHash 0 [97] ∧
     stringHash 0 [97] ≤ kHashMask ∧
     EnsureHash 0 ⟨0, [97]⟩ =
       some (⟨SmallInteger.New 64 (stringHash 0 [97] : Int), [97]⟩,
             SmallInteger.New 64 (stringHash 0 [97] : Int)) ∧
     SmallInteger.value 64 (SmallInteger.New 64 (stringHash 0 [97] : Int)) =
       (stringHash 0 [97] : Int) ∧
     SmallInteger.New 64 (stringHash 0 [97] : Int) ≠ 0 ∧
     (∀ salt' : Nat,
       EnsureHash salt' ⟨SmallInteger.New 64 (stringHash 0 [97] : Int), [97]⟩ =
         some (⟨SmallInteger.New 64 (stringHash 0 [97] : Int), [97]⟩,
               SmallInteger.New 64 (stringHash 0 [97] : Int)))) :=
  ⟨⟨by decide, by decide⟩, ensureHash_spec 0 ⟨0, [97]⟩ (by decide) (by decide)⟩

/-! ### Pointer-enumeration range of Array and WeakArray
(src/vm/object.h lines 421-491)

Slot positions are in machine-word units from the object's base
address: `header_` at 0, `identity_hash_` at 1, `size_` at 2,
`elements_[i]` at `3 + i`.  `from()` is the address of `elements_[0]`
and `to()` the address of `elements_[Size() - 1]`; `Size()` is the smi
value in the size slot.  `WeakArray` has the identical layout. -/

def Array.elementSlot (i : Int) : Int := 3 + i

def Array.fromSlot : Int := Array.elementSlot 0

def Array.toSlot (n : Int) : Int := Array.elementSlot (n - 1)

def WeakArray.elementSlot (i : Int) : Int := 3 + i

def WeakArray.fromSlot : Int := WeakArray.elementSlot 0

def WeakArray.toSlot (n : Int) : Int := WeakArray.elementSlot (n - 1)

/-- C4: for every Array and every WeakArray with element count
`n = size() ≥ 0`, the pointer-enumeration range `[from, to]` starts at
the slot of `elements[0]`, ends at the slot of `elements[n-1]`, is
contiguous, and contains exactly the `n` element reference slots
(`to - from + 1 = n`; empty, `to < from`, when `n = 0`). -/
theorem array_pointer_range (n : Int) (hn : 0 ≤ n) :
    (Array.fromSlot = Array.elementSlot 0 ∧
     Array.toSlot n = Array.elementSlot (n - 1) ∧
     Array.toSlot n - Array.fromSlot + 1 = n ∧
     (n = 0 → Array.toSlot n < Array.fromSlot) ∧
     (∀ i : Int, 0 ≤ i →
       (Array.fromSlot ≤ Array.elementSlot i ∧
        Array.elementSlot i ≤ Array.toSlot n ↔ i < n)) ∧
     (∀ k : Int, Array.fromSlot ≤ k → k ≤ Array.toSlot n →
       ∃ i : Int, 0 ≤ i ∧ i < n ∧ k = Array.elementSlot i)) ∧
    (WeakArray.fromSlot = WeakArray.elementSlot 0 ∧
     WeakArray.toSlot n = WeakArray.elementSlot (n - 1) ∧
     WeakArray.toSlot n - WeakArray.fromSlot + 1 = n ∧
     (n = 0 → WeakArray.toSlot n < WeakArray.fromSlot) ∧
     (∀ i : Int, 0 ≤ i →
       (WeakArray.fromSlot ≤ WeakArray.elementSlot i ∧
        WeakArray.elementSlot i ≤ WeakArray.toSlot n ↔ i < n)) ∧
     (∀ k : Int, WeakArray.fromSlot ≤ k → k ≤ WeakArray.toSlot n →
       ∃ i : Int, 0 ≤ i ∧ i < n ∧ k = WeakArray.elementSlot i)) := by
  refine ⟨⟨rfl, rfl, ?_, ?_, ?_, ?_⟩, rfl, rfl, ?_, ?_, ?_, ?_⟩ <;>
    simp only [Array.fromSlot, Array.toSlot, Array.elementSlot,
      WeakArray.fromSlot, WeakArray.toSlot, WeakArray.elementSlot]
  · omega
  · omega
  · intro i hi
    omega
  · intro k h1 h2
    exact ⟨k - 3, by omega, by omega, by omega⟩
  · omega
  · omega
  · intro i hi
    omega
  · intro k h1 h2
    exact ⟨k - 3, by omega, by omega, by omega⟩

/-- Witness for C4 at `n = 3`. -/
theorem array_pointer_range_witness :
    (0 : Int) ≤ 3 ∧
    (Array.toSlot 3 - Array.fromSlot + 1 = 3 ∧
     WeakArray.toSlot 3 - WeakArray.fromSlot + 1 = 3) :=
  ⟨by norm_num,
   (array_pointer_range 3 (by norm_num)).1.2.2.1,
   (array_pointer_range 3 (by norm_num)).2.2.2.1⟩

/-! ### Method packed header (src/vm/object.h lines 906-961)

`header_` is a SmallInteger slot; `h` below is its value read as
`uword` (the claim restricts to non-negative header values, where the
unsigned reinterpretation is the identity).  The access-mode accessors
carry an `ASSERT((am == 0) || (am == 1) || (am == 2))`, modelled as
`none` on failure.  Note `header >> 28` on a 64-bit word keeps ALL bits
above 28, not just bits [28,30). -/

def Method.NumArgs (h : Nat) : Nat := h >>> 0 &&& 255

def Method.NumTemps (h : Nat) : Nat := h >>> 8 &&& 255

def Method.Primitive (h : Nat) : Nat := h >>> 16 &&& 1023

def Method.IsPublic (h : Nat) : Option Bool :=
  let am := h >>> 28
  if am = 0 ∨ am = 1 ∨ am = 2 then some (decide (am = 0)) else none

def Method.IsProtected (h : Nat) : Option Bool :=
  let am := h >>> 28
  if am = 0 ∨ am = 1 ∨ am = 2 then some (decide (am = 1)) else none

def Method.IsPrivate (h : Nat) : Option Bool :=
  let am := h >>> 28
  if am = 0 ∨ am = 1 ∨ am = 2 then some (decide (am = 2)) else none

/-- C7: for every Method whose packed header holds the non-negative
value `h`, `NumArgs() = h mod 2^8`, `NumTemps() = (h div 2^8) mod 2^8`,
`Primitive() = (h div 2^16) mod 2^10`, and with `m = h div 2^28` one of
0, 1, 2, `IsPublic()` holds iff `m = 0`, `IsProtected()` iff `m = 1`,
and `IsPrivate()` iff `m = 2`. -/
theorem method_header_fields (h : Nat) :
    Method.NumArgs h = h % 2 ^ 8 ∧
    Method.NumTemps h = h / 2 ^ 8 % 2 ^ 8 ∧
    Method.Primitive h = h / 2 ^ 16 % 2 ^ 10 ∧
    (h / 2 ^ 28 ≤ 2 →
      ((Method.IsPublic h = some true ↔ h / 2 ^ 28 = 0) ∧
       (Method.IsProtected h = some true ↔ h / 2 ^ 28 = 1) ∧
       (Method.IsPrivate h = some true ↔ h / 2 ^ 28 = 2))) := by
  have hm8 : (255 : Nat) = 2 ^ 8 - 1 := by norm_num
  have hm10 : (1023 : Nat) = 2 ^ 10 - 1 := by norm_num
  refine ⟨?_, ?_, ?_, ?_⟩
  · simp only [Method.NumArgs, Nat.shiftRight_zero, hm8,
      Nat.and_pow_two_sub_one_eq_mod]
  · simp only [Method.NumTemps, Nat.shiftRight_eq_div_pow, hm8,
      Nat.and_pow_two_sub_one_eq_mod]
  · simp only [Method.Primitive, Nat.shiftRight_eq_div_pow, hm10,
      Nat.and_pow_two_sub_one_eq_mod]
  · intro ham
    have hsr : h >>> 28 = h / 2 ^ 28 := Nat.shiftRight_eq_div_pow h 28
    have hcond : h / 2 ^ 28 = 0 ∨ h / 2 ^ 28 = 1 ∨ h / 2 ^ 28 = 2 := by
      omega
    refine ⟨?_, ?_, ?_⟩ <;>
      · simp only [Method.IsPublic, Method.IsProtected, Method.IsPrivate,
          hsr]
        rw [if_pos hcond]
        simp

/-- Witness for C7 at the packed header
`h = 1*2^28 + 3*2^16 + 2*2^8 + 5`: a protected method with primitive 3,
two temporaries and five arguments. -/
theorem method_header_fields_witness :
    (Method.NumArgs 268632581 = 268632581 % 2 ^ 8 ∧
     Method.NumTemps 268632581 = 268632581 / 2 ^ 8 % 2 ^ 8 ∧
     Method.Primitive 268632581 = 268632581 / 2 ^ 16 % 2 ^ 10) ∧
    268632581 / 2 ^ 28 ≤ 2 ∧
    ((Method.IsPublic 268632581 = some true ↔ 268632581 / 2 ^ 28 = 0) ∧
     (Method.IsProtected 268632581 = some true ↔ 268632581 / 2 ^ 28 = 1) ∧
     (Method.IsPrivate 268632581 = some true ↔ 268632581 / 2 ^ 28 = 2)) :=
  ⟨⟨(method_header_fields 268632581).1,
    (method_header_fields 268632581).2.1,
    (method_header_fields 268632581).2.2.1⟩,
   by decide,
   (method_header_fields 268632581).2.2.2 (by decide)⟩

/-! ### Activation push and pop (src/vm/object.h lines 674-774)

Fixed fields `sender_`, `bci_`, `method_`, `closure_`, `receiver_`,
`stack_depth_` followed by `temps_[kMaxTemps]`.  The slot contents are
opaque machine words here; `stack_depth` is the smi value of the
`stack_depth_` slot.  `Pop` and `PopNAndPush` carry `ASSERT`s on the
depth, modelled as `none`. -/

def kMaxTemps : Nat := 35

structure VMActivation where
  sender : Nat
  bci : Nat
  method : Nat
  closure : Nat
  receiver : Nat
  stack_depth : Int
  temps : List Nat
deriving DecidableEq, Repr

/-- Activation::PopNAndPush (src/vm/object.h lines 740-745): assert
`0 ≤ drop_count ≤ stack_depth()`, set the depth to
`stack_depth() - drop_count + 1`, then store `value` at
`temps_[stack_depth() - 1]` (the new depth). -/
def VMActivation.PopNAndPush (a : VMActivation) (dropCount : Int)
    (v : Nat) : Option VMActivation :=
  if 0 ≤ dropCount ∧ dropCount ≤ a.stack_depth then
    let nd := a.stack_depth - dropCount + 1
    some { a with stack_depth := nd, temps := a.temps.set (nd - 1).toNat v }
  else none

/-- Activation::Push (src/vm/object.h lines 746-748):
`PopNAndPush(0, value)`. -/
def VMActivation.Push (a : VMActivation) (v : Nat) : Option VMActivation :=
  a.PopNAndPush 0 v

/-- Activation::Pop (src/vm/object.h lines 724-729): assert
`stack_depth() > 0`, read `temps_[stack_depth() - 1]`, decrement the
depth, return the read value. -/
def VMActivation.Pop (a : VMActivation) : Option (Nat × VMActivation) :=
  if 0 < a.stack_depth then
    some (a.temps.getD (a.stack_depth - 1).toNat 0,
          { a with stack_depth := a.stack_depth - 1 })
  else none

/-- Helper: `getD` after `set` at the same index. -/
theorem list_getD_set_self (l : List Nat) (i v d : Nat)
    (h : i < l.length) : (l.set i v).getD i d = v := by
  rw [List.getD_eq_getElem?_getD, List.getElem?_set_self h]
  rfl

/-- Helper: `getD` after `set` at a different index. -/
theorem list_getD_set_ne (l : List Nat) (i j v d : Nat)
    (h : i ≠ j) : (l.set i v).getD j d = l.getD j d := by
  rw [List.getD_eq_getElem?_getD, List.getElem?_set_ne h,
      ← List.getD_eq_getElem?_getD]

/-- C8: for every Activation with stack depth `d` where `0 ≤ d` and
`d + 1` is within the 35-slot temp capacity, `Push(v)` increases the
depth to `d + 1` and stores `v` at `temps[d]`; a subsequent `Pop()`
returns `v` and restores depth `d`, leaving sender, bci, method,
closure, receiver, and `temps[0..d-1]` unchanged. -/
theorem activation_push_pop (a : VMActivation) (v : Nat) (d : Int)
    (hd : a.stack_depth = d) (h0 : 0 ≤ d) (hcap : d + 1 ≤ kMaxTemps)
    (hlen : a.temps.length = kMaxTemps) :
    ∃ a', a.Push v = some a' ∧
      a'.stack_depth = d + 1 ∧
      a'.temps.getD d.toNat 0 = v ∧
      ∃ a'', a'.Pop = some (v, a'') ∧
        a''.stack_depth = d ∧
        a''.sender = a.sender ∧ a''.bci = a.bci ∧
        a''.method = a.method ∧ a''.closure = a.closure ∧
        a''.receiver = a.receiver ∧
        (∀ i : Nat, (i : Int) < d →
          a''.temps.getD i 0 = a.temps.getD i 0) := by
  have hc35 : d + 1 ≤ 35 := by simpa [kMaxTemps] using hcap
  have hl35 : a.temps.length = 35 := by simpa [kMaxTemps] using hlen
  have hdt : d.toNat < a.temps.length := by omega
  refine ⟨{ a with stack_depth := d + 1, temps := a.temps.set d.toNat v },
    ?_, rfl, ?_,
    { a with stack_depth := d, temps := a.temps.set d.toNat v },
    ?_, rfl, rfl, rfl, rfl, rfl, rfl, ?_⟩
  · unfold VMActivation.Push VMActivation.PopNAndPush
    rw [if_pos ⟨le_refl 0, by omega⟩]
    simp only [hd]
    rw [show d - 0 + 1 = d + 1 from by ring,
        show ((d : Int) + 1 - 1).toNat = d.toNat from by omega]
  · exact list_getD_set_self _ _ _ _ hdt
  · show VMActivation.Pop
      { a with stack_depth := d + 1, temps := a.temps.set d.toNat v } = _
    unfold VMActivation.Pop
    rw [if_pos (show (0 : Int) < d + 1 from by omega)]
    rw [show ((d : Int) + 1 - 1).toNat = d.toNat from by omega,
        show ((d : Int) + 1 - 1) = d from by ring,
        list_getD_set_self _ _ _ _ hdt]
  · intro i hi
    exact list_getD_set_ne _ _ _ _ _ (by omega)

/-- Witness for C8: an activation of depth 2 holding temps
`[10, 11, 0, ..., 0]` (35 slots), pushing 42. -/
theorem activation_push_pop_witness :
    ((⟨1, 2, 3, 4, 5, 2, 10 :: 11 :: List.replicate 33 0⟩ :
        VMActivation).stack_depth = 2 ∧ (0 : Int) ≤ 2 ∧
      (2 : Int) + 1 ≤ kMaxTemps ∧
      (⟨1, 2, 3, 4, 5, 2, 10 :: 11 :: List.replicate 33 0⟩ :
        VMActivation).temps.length = kMaxTemps) ∧
    (∃ a', (⟨1, 2, 3, 4, 5, 2, 10 :: 11 :: List.replicate 33 0⟩ :
        VMActivation).Push 42 = some a' ∧
      a'.stack_depth = 2 + 1 ∧
      a'.temps.getD (2 : Int).toNat 0 = 42 ∧
      ∃ a'', a'.Pop = some (42, a'') ∧
        a''.stack_depth = 2 ∧
        a''.sender = 1 ∧ a''.bci = 2 ∧ a''.method = 3 ∧ a''.closure = 4 ∧
        a''.receiver = 5 ∧
        (∀ i : Nat, (i : Int) < 2 →
          a''.temps.getD i 0 =
            (⟨1, 2, 3, 4, 5, 2, 10 :: 11 :: List.replicate 33 0⟩ :
              VMActivation).temps.getD i 0)) :=
  ⟨⟨rfl, by norm_num, by norm_num [kMaxTemps], by decide⟩,
   activation_push_pop _ 42 2 rfl (by norm_num) (by norm_num [kMaxTemps])
     (by decide)⟩

/-! ### Analyzer class names (vm/heap_analyzer.cc lines 21-41)

`class_name(heap, cid)` looks the cid's Behavior up, decides whether it
is a metaclass (its Klass is the metaclass of metaclasses), follows the
name slot (`this_class()->name()` for a metaclass, `name()` for a
class), and builds a C++ string.  The heap lookup and metaclass test
live in headers not among the provided sources, so they are abstracted
into the two inputs: whether the behavior is a metaclass, and what the
name slot holds (`IsString` succeeds or not). -/

inductive NameSlot where
  | str (s : String)
  | nonString
deriving DecidableEq, Repr

def class_name (isMetaclass : Bool) (name : NameSlot) : String :=
  if isMetaclass then
    match name with
    | .nonString => "Uninitialized metaclass?"
    | .str s => s ++ " class"
  else
    match name with
    | .nonString => "Uninitialized class?"
    | .str s => s

/-- C9: when the Behavior's name slot does not hold a string, the
analyzer's `class_name` returns a placeholder string ("Uninitialized
class?", or "Uninitialized metaclass?" for a metaclass) instead of
aborting; when it does hold a string, `class_name` returns the name's
bytes, with " class" appended for a metaclass. -/
theorem class_name_total :
    (∀ b : Bool, class_name b .nonString =
      if b then "Uninitialized metaclass?" else "Uninitialized class?") ∧
    (∀ (b : Bool) (s : String), class_name b (.str s) =
      if b then s ++ " class" else s) := by
  constructor
  · intro b
    cases b <;> rfl
  · intro b s
    cases b <;> rfl

/-! ### The 32-bit branch-free small-integer test
(src/vm/object.h lines 350-360)

The `intptr_t` overload of `SmallInteger::IsSmiValue` on a 32-bit
platform is `(v ^ (v << 1)) >= 0`: XOR the word with itself shifted
left by one and test the sign bit.  The `int64_t` overload is the
explicit range check against `kSmiMin` / `kSmiMax`. -/

def IsSmiValue32 (v : Int) : Bool :=
  decide ((wordOfInt 32 v ^^^ wordOfInt 32 (v * 2)) < 2 ^ 31)

def IsSmiValueRange (v : Int) : Bool :=
  decide (kSmiMin 32 ≤ v ∧ v ≤ kSmiMax 32)

/-- Helper: the XOR of two decided sign bits is clear iff the two tests
agree. -/
theorem xor_decide_eq_false_iff (p q : Prop) [Decidable p] [Decidable q] :
    ((decide p ^^ decide q) = false) ↔ (p ↔ q) := by
  by_cases hp : p <;> by_cases hq : q <;> simp [hp, hq]

/-- Helper: bit 31 of a 32-bit word is its sign bit. -/
theorem testBit31_of_lt (n : Nat) (h : n < 2 ^ 32) :
    n.testBit 31 = decide (2 ^ 31 ≤ n) := by
  rw [Nat.testBit_to_div_mod]
  simp only [decide_eq_decide]
  omega

/-- C10: on 32-bit platforms, for every machine-word integer `v`, the
branch-free test `(v XOR (v << 1)) >= 0` of
`SmallInteger::IsSmiValue(intptr_t)` holds iff
`kSmiMin <= v <= kSmiMax`, i.e. it is equivalent to the explicit range
check of the `int64_t` overload. -/
theorem isSmiValue_branchfree_equiv (v : Int)
    (hlo : -(2 ^ 31) ≤ v) (hhi : v < 2 ^ 31) :
    IsSmiValue32 v = IsSmiValueRange v := by
  have hw : ((wordOfInt 32 v : Nat) : Int) = v % 2 ^ 32 := by
    unfold wordOfInt
    exact Int.toNat_of_nonneg (Int.emod_nonneg _ (by norm_num))
  have hs : ((wordOfInt 32 (v * 2) : Nat) : Int) = v * 2 % 2 ^ 32 := by
    unfold wordOfInt
    exact Int.toNat_of_nonneg (Int.emod_nonneg _ (by norm_num))
  have hWlt : wordOfInt 32 v < 2 ^ 32 := by omega
  have hSlt : wordOfInt 32 (v * 2) < 2 ^ 32 := by omega
  have hmin : kSmiMin 32 = -(2 ^ 30) := by norm_num [kSmiMin, kSmiBits]
  have hmax : kSmiMax 32 = 2 ^ 30 - 1 := by norm_num [kSmiMax, kSmiBits]
  unfold IsSmiValue32 IsSmiValueRange
  rw [hmin, hmax]
  simp only [decide_eq_decide]
  have hxlt : (wordOfInt 32 v ^^^ wordOfInt 32 (v * 2)) < 2 ^ 32 :=
    Nat.xor_lt_two_pow hWlt hSlt
  have hx31 : (wordOfInt 32 v ^^^ wordOfInt 32 (v * 2)) < 2 ^ 31 ↔
      (wordOfInt 32 v ^^^ wordOfInt 32 (v * 2)).testBit 31
        = false := by
    rw [testBit31_of_lt _ hxlt]
    simp only [decide_eq_false_iff_not, not_le]
  rw [hx31, Nat.testBit_xor, testBit31_of_lt _ hWlt, testBit31_of_lt _ hSlt,
      xor_decide_eq_false_iff]
  constructor
  · intro hiff
    by_cases hW : 2 ^ 31 ≤ wordOfInt 32 v
    · have hS := hiff.mp hW
      omega
    · have hS : ¬ 2 ^ 31 ≤ wordOfInt 32 (v * 2) := fun h => hW (hiff.mpr h)
      omega
  · intro hrange
    constructor <;> intro h <;> omega

/-- Witness for C10 at `v = 5` (in smi range) — the hypotheses place `v`
in the 32-bit machine-word range. -/
theorem isSmiValue_branchfree_equiv_witness :
    (-(2 ^ 31) ≤ (5 : Int) ∧ (5 : Int) < 2 ^ 31) ∧
    IsSmiValue32 5 = IsSmiValueRange 5 :=
  ⟨⟨by norm_num, by norm_num⟩,
   isSmiValue_branchfree_equiv 5 (by norm_num) (by norm_num)⟩

end PSoup
